import Mathlib

/-!
Verification of the session-to-authorization index and its event-driven
invalidation engine from `cmd/nebraska/auth/githubauth.go`.

Go maps are embedded as association lists with unique keys (the `WF`
predicate); Go string sets (`stringSet`) become duplicate-free lists.
Every operation below is a direct translation of the corresponding Go
function; the lock discipline is irrelevant to the sequential claims and
is elided (each Go critical section becomes one pure state transformer).
-/

namespace Nebraska

/-- `makeTeamName` from githubauth.go: `fmt.Sprintf("%s/%s", org, team)`. -/
def makeTeamName (org team : String) : String := org ++ "/" ++ team

/-- `githubTeamData`: the team binding stored per session; `team = none`
models the Go `nil` pointer (org-only binding). -/
structure GithubTeamData where
  org : String
  team : Option String
deriving DecidableEq, Repr

/-- `sessionIDToTeamDataMap`: Go map from session id to team binding. -/
abbrev SessionIDToTeamDataMap := List (String × GithubTeamData)

/-- `userSessionMap`: Go map from username to its session map. -/
abbrev UserSessionMap := List (String × SessionIDToTeamDataMap)

/-- `teamToUsersMap`: Go map from full team name to the set of usernames. -/
abbrev TeamToUsersMap := List (String × List String)

/-- The two index maps owned by `githubAuth` (`userSessionIDs`, `teamToUsers`). -/
structure IndexState where
  userSessionIDs : UserSessionMap
  teamToUsers : TeamToUsersMap
deriving DecidableEq, Repr

/-- The index at process start: both maps empty. -/
def emptyIndex : IndexState := ⟨[], []⟩

/-- Association-list lookup, modelling Go map read `m[k]` (with `ok`). -/
def lookupKey {α : Type} : List (String × α) → String → Option α
  | [], _ => none
  | p :: rest, k => if p.1 = k then some p.2 else lookupKey rest k

/-- Association-list update, modelling Go map write `m[k] = v`. -/
def setKey {α : Type} : List (String × α) → String → α → List (String × α)
  | [], k, v => [(k, v)]
  | p :: rest, k, v => if p.1 = k then (k, v) :: rest else p :: setKey rest k v

/-- Association-list removal, modelling Go `delete(m, k)`. -/
def eraseKey {α : Type} : List (String × α) → String → List (String × α)
  | [], _ => []
  | p :: rest, k => if p.1 = k then rest else p :: eraseKey rest k

/-- The recurring Go pattern
`delete(usersSet, username); if len(usersSet) == 0 { delete(gha.teamToUsers, teamName) }`. -/
def removeUserFromTeam (t : TeamToUsersMap) (teamName username : String) : TeamToUsersMap :=
  match lookupKey t teamName with
  | none => t
  | some users =>
      let users' := users.filter (fun u => u ≠ username)
      if users'.isEmpty then eraseKey t teamName else setKey t teamName users'

/-- `addSessionID` from githubauth.go: insert a session under the user and,
for a team-bound binding, add the user to the team's user set. -/
def addSessionID (s : IndexState) (username sessionID : String)
    (teamData : GithubTeamData) : IndexState :=
  let sessionIDs := (lookupKey s.userSessionIDs username).getD []
  let sessionIDs' := setKey sessionIDs sessionID teamData
  let us' := setKey s.userSessionIDs username sessionIDs'
  match teamData.team with
  | none => { userSessionIDs := us', teamToUsers := s.teamToUsers }
  | some tm =>
      let teamName := makeTeamName teamData.org tm
      let users := (lookupKey s.teamToUsers teamName).getD []
      let users' := if username ∈ users then users else users ++ [username]
      { userSessionIDs := us', teamToUsers := setKey s.teamToUsers teamName users' }

/-- `cleanupSession` from githubauth.go, index part: `username = none` models a
session without a string `"username"` entry (the type assertion fails and the
function returns before touching the index). -/
def cleanupSession (s : IndexState) (username : Option String) (sessionID : String) :
    IndexState :=
  match username with
  | none => s
  | some u =>
    match lookupKey s.userSessionIDs u with
    | none => s
    | some sessionIDs =>
      match lookupKey sessionIDs sessionID with
      | none => s
      | some teamData =>
        let t' := match teamData.team with
          | none => s.teamToUsers
          | some tm => removeUserFromTeam s.teamToUsers (makeTeamName teamData.org tm) u
        let sessionIDs' := eraseKey sessionIDs sessionID
        let us' := if sessionIDs'.isEmpty then eraseKey s.userSessionIDs u
          else setKey s.userSessionIDs u sessionIDs'
        { userSessionIDs := us', teamToUsers := t' }

/-- `stealUserSessionIDs`: drop every session of the user, pruning each
team-bound session's user-set entry; return the dropped session ids. -/
def stealUserSessionIDs (s : IndexState) (username : String) :
    List String × IndexState :=
  match lookupKey s.userSessionIDs username with
  | none => ([], s)
  | some sessionIDsAndTeams =>
      let ids := sessionIDsAndTeams.map Prod.fst
      let t' := sessionIDsAndTeams.foldl (fun acc p =>
          match p.2.team with
          | none => acc
          | some tm => removeUserFromTeam acc (makeTeamName p.2.org tm) username)
        s.teamToUsers
      (ids, { userSessionIDs := eraseKey s.userSessionIDs username, teamToUsers := t' })

/-- The Go matching condition `teamData.org == org && teamData.team == nil`. -/
def orgOnlyMatch (org : String) (p : String × GithubTeamData) : Bool :=
  p.2.org == org && p.2.team.isNone

/-- `stealUserSessionIDsForOrg`: drop the user's sessions whose binding is
org-only for `org`; the team map is never touched. -/
def stealUserSessionIDsForOrg (s : IndexState) (username org : String) :
    List String × IndexState :=
  match lookupKey s.userSessionIDs username with
  | none => ([], s)
  | some m =>
      let ids := (m.filter (orgOnlyMatch org)).map Prod.fst
      let remaining := m.filter (fun p => !(orgOnlyMatch org p))
      let us' := if remaining.isEmpty then eraseKey s.userSessionIDs username
        else setKey s.userSessionIDs username remaining
      (ids, { s with userSessionIDs := us' })

/-- The Go matching condition
`teamData.org == org && teamData.team != nil && *teamData.team == team`. -/
def orgTeamMatch (org team : String) (p : String × GithubTeamData) : Bool :=
  p.2.org == org && p.2.team == some team

/-- `stealUserSessionIDsForOrgAndTeam`: drop the user's sessions bound exactly
to `org`/`team`, pruning the team's user set once per dropped session. -/
def stealUserSessionIDsForOrgAndTeam (s : IndexState) (username org team : String) :
    List String × IndexState :=
  match lookupKey s.userSessionIDs username with
  | none => ([], s)
  | some m =>
      let matched := m.filter (orgTeamMatch org team)
      let ids := matched.map Prod.fst
      let t' := matched.foldl
        (fun acc _ => removeUserFromTeam acc (makeTeamName org team) username)
        s.teamToUsers
      let remaining := m.filter (fun p => !(orgTeamMatch org team p))
      let us' := if remaining.isEmpty then eraseKey s.userSessionIDs username
        else setKey s.userSessionIDs username remaining
      (ids, { userSessionIDs := us', teamToUsers := t' })

/-- `stealSessionIDsForOrgAndTeam`: iterate the team's user set, drop each such
user's sessions bound exactly to `org`/`team`, then delete the team-set key. -/
def stealSessionIDsForOrgAndTeam (s : IndexState) (org team : String) :
    List String × IndexState :=
  let teamName := makeTeamName org team
  let users := (lookupKey s.teamToUsers teamName).getD []
  let r := users.foldl (fun (acc : List String × UserSessionMap) username =>
      match lookupKey acc.2 username with
      | none => acc
      | some m =>
          let matched := m.filter (orgTeamMatch org team)
          let remaining := m.filter (fun p => !(orgTeamMatch org team p))
          let us' := if remaining.isEmpty then eraseKey acc.2 username
            else setKey acc.2 username remaining
          (acc.1 ++ matched.map Prod.fst, us'))
    ([], s.userSessionIDs)
  (r.1, { userSessionIDs := r.2, teamToUsers := eraseKey s.teamToUsers teamName })

/-- Well-formedness of the embedding: association-list keys are unique and
user sets are duplicate-free, as Go maps guarantee intrinsically. -/
def WF (s : IndexState) : Prop :=
  (s.userSessionIDs.map Prod.fst).Nodup ∧
  (∀ p ∈ s.userSessionIDs, (p.2.map Prod.fst).Nodup) ∧
  (s.teamToUsers.map Prod.fst).Nodup ∧
  (∀ q ∈ s.teamToUsers, q.2.Nodup)

instance : DecidablePred WF := fun s => by
  unfold WF; infer_instance

/-! Association-list lemmas. -/

theorem lookupKey_eq_none {α : Type} {l : List (String × α)} {k : String}
    (h : k ∉ l.map Prod.fst) : lookupKey l k = none := by
  induction l with
  | nil => rfl
  | cons p rest ih =>
    obtain ⟨a, b⟩ := p
    simp only [List.map_cons, List.mem_cons] at h
    push_neg at h
    have ha : a ≠ k := fun he => h.1 he.symm
    simpa only [lookupKey, if_neg ha] using ih h.2

theorem mem_of_lookupKey {α : Type} {l : List (String × α)} {k : String} {v : α}
    (h : lookupKey l k = some v) : (k, v) ∈ l := by
  induction l with
  | nil => simp [lookupKey] at h
  | cons p rest ih =>
    obtain ⟨a, b⟩ := p
    by_cases he : a = k
    · simp only [lookupKey, if_pos he] at h
      obtain rfl : b = v := Option.some.inj h
      subst he
      exact List.mem_cons_self _ _
    · simp only [lookupKey, if_neg he] at h
      exact List.mem_cons_of_mem _ (ih h)

theorem lookupKey_of_mem_nodup {α : Type} {l : List (String × α)}
    (hnd : (l.map Prod.fst).Nodup) {k : String} {v : α} (hm : (k, v) ∈ l) :
    lookupKey l k = some v := by
  induction l with
  | nil => simp at hm
  | cons p rest ih =>
    obtain ⟨a, b⟩ := p
    simp only [List.map_cons, List.nodup_cons] at hnd
    rcases List.mem_cons.mp hm with h | h
    · obtain ⟨rfl, rfl⟩ := Prod.mk.injEq .. ▸ h
      simp [lookupKey]
    · have ha : a ≠ k := by
        rintro rfl
        exact hnd.1 (List.mem_map.mpr ⟨(a, v), h, rfl⟩)
      simp only [lookupKey, if_neg ha]
      exact ih hnd.2 h

theorem lookupKey_setKey_self {α : Type} (l : List (String × α)) (k : String) (v : α) :
    lookupKey (setKey l k v) k = some v := by
  induction l with
  | nil => simp [setKey, lookupKey]
  | cons p rest ih =>
    obtain ⟨a, b⟩ := p
    by_cases he : a = k
    · simp [setKey, lookupKey, he]
    · simp [setKey, lookupKey, he, ih]

theorem lookupKey_setKey_ne {α : Type} {l : List (String × α)} {k k' : String} (v : α)
    (h : k' ≠ k) : lookupKey (setKey l k v) k' = lookupKey l k' := by
  have h' : k ≠ k' := Ne.symm h
  induction l with
  | nil => simp [setKey, lookupKey, h']
  | cons p rest ih =>
    obtain ⟨a, b⟩ := p
    by_cases he : a = k
    · subst he
      simp [setKey, lookupKey, h']
    · simp only [setKey, if_neg he]
      by_cases he' : a = k'
      · simp [lookupKey, he']
      · simp [lookupKey, he', ih]

theorem setKey_lookup_eq {α : Type} {l : List (String × α)} {k : String} {v : α}
    (h : lookupKey l k = some v) : setKey l k v = l := by
  induction l with
  | nil => simp [lookupKey] at h
  | cons p rest ih =>
    obtain ⟨a, b⟩ := p
    by_cases he : a = k
    · simp only [lookupKey, if_pos he] at h
      obtain rfl : b = v := Option.some.inj h
      simp [setKey, he]
    · simp only [lookupKey, if_neg he] at h
      simp [setKey, he, ih h]

theorem lookupKey_eraseKey_self {α : Type} {l : List (String × α)}
    (hnd : (l.map Prod.fst).Nodup) (k : String) :
    lookupKey (eraseKey l k) k = none := by
  induction l with
  | nil => rfl
  | cons p rest ih =>
    obtain ⟨a, b⟩ := p
    simp only [List.map_cons, List.nodup_cons] at hnd
    by_cases he : a = k
    · subst he
      simp only [eraseKey, if_pos rfl]
      exact lookupKey_eq_none hnd.1
    · simp only [eraseKey, if_neg he, lookupKey, if_neg he]
      exact ih hnd.2

theorem lookupKey_eraseKey_ne {α : Type} {l : List (String × α)} {k k' : String}
    (h : k' ≠ k) : lookupKey (eraseKey l k) k' = lookupKey l k' := by
  have h' : k ≠ k' := Ne.symm h
  induction l with
  | nil => rfl
  | cons p rest ih =>
    obtain ⟨a, b⟩ := p
    by_cases he : a = k
    · subst he
      simp [eraseKey, lookupKey, h']
    · simp only [eraseKey, if_neg he]
      by_cases he' : a = k'
      · simp [lookupKey, he']
      · simp [lookupKey, he', ih]

theorem eraseKey_of_lookupKey_none {α : Type} {l : List (String × α)} {k : String}
    (h : lookupKey l k = none) : eraseKey l k = l := by
  induction l with
  | nil => rfl
  | cons p rest ih =>
    obtain ⟨a, b⟩ := p
    by_cases he : a = k
    · simp [lookupKey, he] at h
    · simp only [lookupKey, if_neg he] at h
      simp [eraseKey, he, ih h]

theorem eraseKey_sublist {α : Type} (l : List (String × α)) (k : String) :
    (eraseKey l k).Sublist l := by
  induction l with
  | nil => simp [eraseKey]
  | cons p rest ih =>
    by_cases he : p.1 = k
    · simp only [eraseKey, if_pos he]
      exact List.sublist_cons_self p rest
    · simpa [eraseKey, he] using List.Sublist.cons₂ p ih

theorem filter_neg_filter {α : Type} (l : List α) (f : α → Bool) :
    (l.filter (fun a => !(f a))).filter f = [] := by
  induction l with
  | nil => rfl
  | cons a rest ih => by_cases hf : f a <;> simp [List.filter_cons, hf, ih]

theorem filter_neg_idem {α : Type} (l : List α) (f : α → Bool) :
    (l.filter (fun a => !(f a))).filter (fun a => !(f a)) = l.filter (fun a => !(f a)) := by
  induction l with
  | nil => rfl
  | cons a rest ih => by_cases hf : f a <;> simp [List.filter_cons, hf, ih]

/-! Idempotence of the four removal queries (second call in a row is a no-op). -/

theorem stealUserSessionIDs_idem (s : IndexState)
    (hnd : (s.userSessionIDs.map Prod.fst).Nodup) (u : String) :
    stealUserSessionIDs (stealUserSessionIDs s u).2 u
      = ([], (stealUserSessionIDs s u).2) := by
  cases hl : lookupKey s.userSessionIDs u with
  | none => simp [stealUserSessionIDs, hl]
  | some m =>
    have h2 : lookupKey (eraseKey s.userSessionIDs u) u = none :=
      lookupKey_eraseKey_self hnd u
    simp [stealUserSessionIDs, hl, h2]

theorem stealUserSessionIDsForOrg_idem (s : IndexState)
    (hnd : (s.userSessionIDs.map Prod.fst).Nodup) (u org : String) :
    stealUserSessionIDsForOrg (stealUserSessionIDsForOrg s u org).2 u org
      = ([], (stealUserSessionIDsForOrg s u org).2) := by
  cases hl : lookupKey s.userSessionIDs u with
  | none => simp [stealUserSessionIDsForOrg, hl]
  | some m =>
    by_cases hre : (m.filter (fun p => !(orgOnlyMatch org p))).isEmpty
    · have h2 : lookupKey (eraseKey s.userSessionIDs u) u = none :=
        lookupKey_eraseKey_self hnd u
      simp [stealUserSessionIDsForOrg, hl, hre, h2]
    · have h2 := lookupKey_setKey_self s.userSessionIDs u
        (m.filter (fun p => !(orgOnlyMatch org p)))
      have h3 := filter_neg_filter m (orgOnlyMatch org)
      have h4 := filter_neg_idem m (orgOnlyMatch org)
      have h5 := setKey_lookup_eq h2
      simp [stealUserSessionIDsForOrg, hl, hre, h2, h3, h4, h5]

theorem stealUserSessionIDsForOrgAndTeam_idem (s : IndexState)
    (hnd : (s.userSessionIDs.map Prod.fst).Nodup) (u org team : String) :
    stealUserSessionIDsForOrgAndTeam (stealUserSessionIDsForOrgAndTeam s u org team).2 u org team
      = ([], (stealUserSessionIDsForOrgAndTeam s u org team).2) := by
  cases hl : lookupKey s.userSessionIDs u with
  | none => simp [stealUserSessionIDsForOrgAndTeam, hl]
  | some m =>
    by_cases hre : (m.filter (fun p => !(orgTeamMatch org team p))).isEmpty
    · have h2 : lookupKey (eraseKey s.userSessionIDs u) u = none :=
        lookupKey_eraseKey_self hnd u
      simp [stealUserSessionIDsForOrgAndTeam, hl, hre, h2]
    · have h2 := lookupKey_setKey_self s.userSessionIDs u
        (m.filter (fun p => !(orgTeamMatch org team p)))
      have h3 := filter_neg_filter m (orgTeamMatch org team)
      have h4 := filter_neg_idem m (orgTeamMatch org team)
      have h5 := setKey_lookup_eq h2
      simp [stealUserSessionIDsForOrgAndTeam, hl, hre, h2, h3, h4, h5]

theorem stealSessionIDsForOrgAndTeam_idem (s : IndexState)
    (hnd : (s.teamToUsers.map Prod.fst).Nodup) (org team : String) :
    stealSessionIDsForOrgAndTeam (stealSessionIDsForOrgAndTeam s org team).2 org team
      = ([], (stealSessionIDsForOrgAndTeam s org team).2) := by
  have h1 : lookupKey (eraseKey s.teamToUsers (makeTeamName org team)) (makeTeamName org team)
      = none := lookupKey_eraseKey_self hnd _
  have h2 := eraseKey_of_lookupKey_none h1
  simp [stealSessionIDsForOrgAndTeam, h1, h2]

/-- C2: calling any of the four removal queries (`stealUserSessionIDs`,
`stealUserSessionIDsForOrg`, `stealUserSessionIDsForOrgAndTeam`,
`stealSessionIDsForOrgAndTeam`) twice in a row with the same arguments returns
an empty session-id list on the second call, and the second call leaves both
index maps unchanged. -/
theorem removal_queries_idempotent (s : IndexState) (hWF : WF s) (u org team : String) :
    stealUserSessionIDs (stealUserSessionIDs s u).2 u
      = ([], (stealUserSessionIDs s u).2) ∧
    stealUserSessionIDsForOrg (stealUserSessionIDsForOrg s u org).2 u org
      = ([], (stealUserSessionIDsForOrg s u org).2) ∧
    stealUserSessionIDsForOrgAndTeam (stealUserSessionIDsForOrgAndTeam s u org team).2 u org team
      = ([], (stealUserSessionIDsForOrgAndTeam s u org team).2) ∧
    stealSessionIDsForOrgAndTeam (stealSessionIDsForOrgAndTeam s org team).2 org team
      = ([], (stealSessionIDsForOrgAndTeam s org team).2) :=
  ⟨stealUserSessionIDs_idem s hWF.1 u,
   stealUserSessionIDsForOrg_idem s hWF.1 u org,
   stealUserSessionIDsForOrgAndTeam_idem s hWF.1 u org team,
   stealSessionIDsForOrgAndTeam_idem s hWF.2.2.1 org team⟩

/-- A small populated index used to instantiate theorems with hypotheses. -/
def sampleIndex : IndexState :=
  ⟨[("alice", [("sess1", ⟨"acme", some "infra"⟩), ("sess2", ⟨"acme", none⟩)])],
   [("acme/infra", ["alice"])]⟩

/-- Witness for C2 at a concrete populated index. -/
theorem removal_queries_idempotent_witness :
    WF sampleIndex ∧
    (stealUserSessionIDs (stealUserSessionIDs sampleIndex "alice").2 "alice"
      = ([], (stealUserSessionIDs sampleIndex "alice").2) ∧
    stealUserSessionIDsForOrg
        (stealUserSessionIDsForOrg sampleIndex "alice" "acme").2 "alice" "acme"
      = ([], (stealUserSessionIDsForOrg sampleIndex "alice" "acme").2) ∧
    stealUserSessionIDsForOrgAndTeam
        (stealUserSessionIDsForOrgAndTeam sampleIndex "alice" "acme" "infra").2
        "alice" "acme" "infra"
      = ([], (stealUserSessionIDsForOrgAndTeam sampleIndex "alice" "acme" "infra").2) ∧
    stealSessionIDsForOrgAndTeam
        (stealSessionIDsForOrgAndTeam sampleIndex "acme" "infra").2 "acme" "infra"
      = ([], (stealSessionIDsForOrgAndTeam sampleIndex "acme" "infra").2)) :=
  ⟨by decide, removal_queries_idempotent sampleIndex (by decide) "alice" "acme" "infra"⟩

/-! Traces of index mutations: every way the source mutates the two maps. -/

/-- One index mutation: insert on login, explicit cleanup, or one of the four
webhook removal queries. -/
inductive Op where
  | add (username sessionID : String) (td : GithubTeamData)
  | cleanup (username : Option String) (sessionID : String)
  | stealUser (username : String)
  | stealUserOrg (username org : String)
  | stealUserOrgTeam (username org team : String)
  | stealOrgTeam (org team : String)

/-- The state transformer of one mutation (the removal queries' returned id
lists are dropped here). -/
def applyOp (s : IndexState) : Op → IndexState
  | .add u sid td => addSessionID s u sid td
  | .cleanup u sid => cleanupSession s u sid
  | .stealUser u => (stealUserSessionIDs s u).2
  | .stealUserOrg u o => (stealUserSessionIDsForOrg s u o).2
  | .stealUserOrgTeam u o t => (stealUserSessionIDsForOrgAndTeam s u o t).2
  | .stealOrgTeam o t => (stealSessionIDsForOrgAndTeam s o t).2

/-- Run a sequence of index mutations from a starting state. -/
def runOps (s : IndexState) (ops : List Op) : IndexState := ops.foldl applyOp s

/-- Forward direction of the spec's bidirectional invariant: every team-bound
session entry has its username in the team's user set. -/
def checkInvFwd (s : IndexState) : Bool :=
  s.userSessionIDs.all fun p => p.2.all fun q =>
    match q.2.team with
    | none => true
    | some tm => s.teamToUsers.any fun r =>
        r.1 == makeTeamName q.2.org tm && r.2.contains p.1

/-- Backward direction of the spec's bidirectional invariant: every username in
a team's user set has at least one session bound to that team name. -/
def checkInvBwd (s : IndexState) : Bool :=
  s.teamToUsers.all fun r => r.2.all fun u =>
    s.userSessionIDs.any fun p => p.1 == u && p.2.any fun q =>
      match q.2.team with
      | none => false
      | some tm => makeTeamName q.2.org tm == r.1

/-- The spec's bidirectional index invariant, as an executable check. -/
def checkInv (s : IndexState) : Bool := checkInvFwd s && checkInvBwd s

/-- C1: refuted on the source. Re-inserting an existing `(username, sessionID)`
pair with a different binding (`addSessionID` overwrites the binding) leaves
the username in the old team's user set with no session bound to that team:
the invariant holds after the first insert and is violated after the rebinding
insert (the backward, no-orphan direction fails). -/
theorem addSessionID_rebind_orphan :
    checkInv (runOps emptyIndex [Op.add "u" "s" ⟨"a", some "t1"⟩]) = true ∧
    checkInv (runOps emptyIndex
      [Op.add "u" "s" ⟨"a", some "t1"⟩, Op.add "u" "s" ⟨"a", some "t2"⟩]) = false ∧
    checkInvBwd (runOps emptyIndex
      [Op.add "u" "s" ⟨"a", some "t1"⟩, Op.add "u" "s" ⟨"a", some "t2"⟩]) = false := by
  decide

/-! C9: no map ever holds a key whose associated collection is empty. -/

/-- No key of either map is associated to an empty collection. -/
def NoEmpty (s : IndexState) : Prop :=
  (∀ p ∈ s.userSessionIDs, p.2 ≠ []) ∧ (∀ q ∈ s.teamToUsers, q.2 ≠ [])

theorem setKey_ne_nil {α : Type} (l : List (String × α)) (k : String) (v : α) :
    setKey l k v ≠ [] := by
  cases l with
  | nil => simp [setKey]
  | cons p rest => by_cases he : p.1 = k <;> simp [setKey, he]

theorem mem_setKey {α : Type} {l : List (String × α)} {k : String} {v : α} {p : String × α}
    (h : p ∈ setKey l k v) : p = (k, v) ∨ p ∈ l := by
  induction l with
  | nil => exact Or.inl (by simpa [setKey] using h)
  | cons q rest ih =>
    by_cases he : q.1 = k
    · simp only [setKey, if_pos he, List.mem_cons] at h
      rcases h with h | h
      · exact Or.inl h
      · exact Or.inr (List.mem_cons_of_mem _ h)
    · simp only [setKey, if_neg he, List.mem_cons] at h
      rcases h with h | h
      · exact Or.inr (h ▸ List.mem_cons_self _ _)
      · rcases ih h with h' | h'
        · exact Or.inl h'
        · exact Or.inr (List.mem_cons_of_mem _ h')

theorem not_isEmpty_ne_nil {α : Type} {l : List α} (h : ¬l.isEmpty = true) : l ≠ [] := by
  intro hnil
  rw [hnil] at h
  exact h rfl

theorem removeUserFromTeam_noEmpty {t : TeamToUsersMap}
    (h : ∀ q ∈ t, q.2 ≠ []) (tn u : String) :
    ∀ q ∈ removeUserFromTeam t tn u, q.2 ≠ [] := by
  intro q hq
  unfold removeUserFromTeam at hq
  cases hl : lookupKey t tn with
  | none =>
    rw [hl] at hq
    exact h q hq
  | some users =>
    rw [hl] at hq
    simp only at hq
    by_cases he : (users.filter (fun x => x ≠ u)).isEmpty
    · rw [if_pos he] at hq
      exact h q ((eraseKey_sublist t tn).subset hq)
    · rw [if_neg he] at hq
      rcases mem_setKey hq with heq | hq'
      · rw [heq]
        exact not_isEmpty_ne_nil he
      · exact h q hq'

theorem addSessionID_noEmpty {s : IndexState} (h : NoEmpty s)
    (u sid : String) (td : GithubTeamData) : NoEmpty (addSessionID s u sid td) := by
  obtain ⟨h1, h2⟩ := h
  have hus : ∀ p ∈ setKey s.userSessionIDs u
      (setKey ((lookupKey s.userSessionIDs u).getD []) sid td), p.2 ≠ [] := by
    intro p hp
    rcases mem_setKey hp with heq | hp'
    · rw [heq]
      exact setKey_ne_nil _ _ _
    · exact h1 p hp'
  cases htd : td.team with
  | none =>
    simp only [addSessionID, htd]
    exact ⟨hus, h2⟩
  | some tm =>
    simp only [addSessionID, htd]
    refine ⟨hus, ?_⟩
    intro q hq
    rcases mem_setKey hq with heq | hq'
    · rw [heq]
      by_cases hu : u ∈ (lookupKey s.teamToUsers (makeTeamName td.org tm)).getD []
      · simp only [if_pos hu]
        exact List.ne_nil_of_mem hu
      · simp only [if_neg hu]
        simp
    · exact h2 q hq'

theorem cleanupSession_noEmpty {s : IndexState} (h : NoEmpty s)
    (u : Option String) (sid : String) : NoEmpty (cleanupSession s u sid) := by
  obtain ⟨h1, h2⟩ := h
  cases u with
  | none => exact ⟨h1, h2⟩
  | some un =>
    cases hl : lookupKey s.userSessionIDs un with
    | none =>
      simp only [cleanupSession, hl]
      exact ⟨h1, h2⟩
    | some m =>
      cases hsd : lookupKey m sid with
      | none =>
        simp only [cleanupSession, hl, hsd]
        exact ⟨h1, h2⟩
      | some td =>
        simp only [cleanupSession, hl, hsd]
        constructor
        · intro p hp
          by_cases hre : (eraseKey m sid).isEmpty
          · rw [if_pos hre] at hp
            exact h1 p ((eraseKey_sublist _ _).subset hp)
          · rw [if_neg hre] at hp
            rcases mem_setKey hp with heq | hp'
            · rw [heq]
              exact not_isEmpty_ne_nil hre
            · exact h1 p hp'
        · cases htd : td.team with
          | none => simpa only [htd] using h2
          | some tm =>
            simp only [htd]
            exact removeUserFromTeam_noEmpty h2 _ _

theorem foldl_rmTeam_noEmpty (l : List (String × GithubTeamData)) (u : String)
    {t : TeamToUsersMap} (h : ∀ q ∈ t, q.2 ≠ []) :
    ∀ q ∈ l.foldl (fun acc p =>
        match p.2.team with
        | none => acc
        | some tm => removeUserFromTeam acc (makeTeamName p.2.org tm) u) t, q.2 ≠ [] := by
  induction l generalizing t with
  | nil => exact h
  | cons p rest ih =>
    simp only [List.foldl_cons]
    apply ih
    cases hpt : p.2.team with
    | none => simpa only [hpt] using h
    | some tm =>
      simp only [hpt]
      exact removeUserFromTeam_noEmpty h _ _

theorem foldl_const_rmTeam_noEmpty {α : Type} (l : List α) (tn u : String)
    {t : TeamToUsersMap} (h : ∀ q ∈ t, q.2 ≠ []) :
    ∀ q ∈ l.foldl (fun acc _ => removeUserFromTeam acc tn u) t, q.2 ≠ [] := by
  induction l generalizing t with
  | nil => exact h
  | cons p rest ih =>
    simp only [List.foldl_cons]
    exact ih (removeUserFromTeam_noEmpty h tn u)

theorem foldl_stealOT_noEmpty (users : List String) (org team : String)
    {acc : List String × UserSessionMap} (h : ∀ p ∈ acc.2, p.2 ≠ []) :
    ∀ p ∈ (users.foldl (fun (acc : List String × UserSessionMap) username =>
        match lookupKey acc.2 username with
        | none => acc
        | some m =>
            let matched := m.filter (orgTeamMatch org team)
            let remaining := m.filter (fun p => !(orgTeamMatch org team p))
            let us' := if remaining.isEmpty then eraseKey acc.2 username
              else setKey acc.2 username remaining
            (acc.1 ++ matched.map Prod.fst, us')) acc).2, p.2 ≠ [] := by
  induction users generalizing acc with
  | nil => exact h
  | cons un rest ih =>
    simp only [List.foldl_cons]
    apply ih
    cases hl : lookupKey acc.2 un with
    | none => simpa only [hl] using h
    | some m =>
      simp only [hl]
      intro p hp
      by_cases hre : (m.filter (fun p => !(orgTeamMatch org team p))).isEmpty
      · simp only [if_pos hre] at hp
        exact h p ((eraseKey_sublist _ _).subset hp)
      · simp only [if_neg hre] at hp
        rcases mem_setKey hp with heq | hp'
        · rw [heq]
          exact not_isEmpty_ne_nil hre
        · exact h p hp'

theorem applyOp_noEmpty {s : IndexState} (h : NoEmpty s) (op : Op) :
    NoEmpty (applyOp s op) := by
  obtain ⟨h1, h2⟩ := h
  cases op with
  | add u sid td => exact addSessionID_noEmpty ⟨h1, h2⟩ u sid td
  | cleanup u sid => exact cleanupSession_noEmpty ⟨h1, h2⟩ u sid
  | stealUser u =>
    simp only [applyOp, stealUserSessionIDs]
    cases hl : lookupKey s.userSessionIDs u with
    | none => exact ⟨h1, h2⟩
    | some m =>
      simp only
      refine ⟨?_, foldl_rmTeam_noEmpty m u h2⟩
      intro p hp
      exact h1 p ((eraseKey_sublist _ _).subset hp)
  | stealUserOrg u org =>
    simp only [applyOp, stealUserSessionIDsForOrg]
    cases hl : lookupKey s.userSessionIDs u with
    | none => exact ⟨h1, h2⟩
    | some m =>
      simp only
      refine ⟨?_, h2⟩
      intro p hp
      by_cases hre : (m.filter (fun p => !(orgOnlyMatch org p))).isEmpty
      · simp only [if_pos hre] at hp
        exact h1 p ((eraseKey_sublist _ _).subset hp)
      · simp only [if_neg hre] at hp
        rcases mem_setKey hp with heq | hp'
        · rw [heq]
          exact not_isEmpty_ne_nil hre
        · exact h1 p hp'
  | stealUserOrgTeam u org team =>
    simp only [applyOp, stealUserSessionIDsForOrgAndTeam]
    cases hl : lookupKey s.userSessionIDs u with
    | none => exact ⟨h1, h2⟩
    | some m =>
      simp only
      refine ⟨?_, foldl_const_rmTeam_noEmpty _ _ _ h2⟩
      intro p hp
      by_cases hre : (m.filter (fun p => !(orgTeamMatch org team p))).isEmpty
      · simp only [if_pos hre] at hp
        exact h1 p ((eraseKey_sublist _ _).subset hp)
      · simp only [if_neg hre] at hp
        rcases mem_setKey hp with heq | hp'
        · rw [heq]
          exact not_isEmpty_ne_nil hre
        · exact h1 p hp'
  | stealOrgTeam org team =>
    simp only [applyOp, stealSessionIDsForOrgAndTeam]
    refine ⟨foldl_stealOT_noEmpty _ org team h1, ?_⟩
    intro q hq
    exact h2 q ((eraseKey_sublist _ _).subset hq)

/-- C9: after any sequence of index mutations starting from the empty index,
neither map holds a key whose associated collection is empty: every operation
that can empty a user's session map or a team's user set deletes the key. -/
theorem index_no_empty_collections (ops : List Op) : NoEmpty (runOps emptyIndex ops) := by
  have main : ∀ s, NoEmpty s → NoEmpty (runOps s ops) := by
    induction ops with
    | nil => exact fun s h => h
    | cons op rest ih => exact fun s h => ih (applyOp s op) (applyOp_noEmpty h op)
  refine main emptyIndex ⟨?_, ?_⟩ <;> intro p hp <;> simp [emptyIndex] at hp

/-! C6: exactness of the organization-removal query. -/

/-- Read one session's binding out of the index (`gha.userSessionIDs[u][sid]`). -/
def sessionLookup (s : IndexState) (u sid : String) : Option GithubTeamData :=
  match lookupKey s.userSessionIDs u with
  | none => none
  | some m => lookupKey m sid

theorem lookupKey_filter {α : Type} {l : List (String × α)} {k : String} {v : α}
    {f : String × α → Bool}
    (h : lookupKey l k = some v) (hf : f (k, v) = true) :
    lookupKey (l.filter f) k = some v := by
  induction l with
  | nil => simp [lookupKey] at h
  | cons p rest ih =>
    obtain ⟨a, b⟩ := p
    by_cases he : a = k
    · subst he
      simp only [lookupKey, if_pos rfl] at h
      obtain rfl : b = v := Option.some.inj h
      simp [List.filter_cons, hf, lookupKey]
    · simp only [lookupKey, if_neg he] at h
      by_cases hfp : f (a, b) = true
      · rw [List.filter_cons, if_pos hfp]
        simp only [lookupKey, if_neg he]
        exact ih h
      · rw [List.filter_cons, if_neg hfp]
        exact ih h

theorem lookupKey_ne_nil {α : Type} {l : List (String × α)} {k : String} {v : α}
    (h : lookupKey l k = some v) : l ≠ [] := by
  intro hnil
  rw [hnil] at h
  simp [lookupKey] at h

theorem lookupKey_filter_none {α : Type} {l : List (String × α)}
    (hnd : (l.map Prod.fst).Nodup) {k : String} {v : α} {f : String × α → Bool}
    (h : lookupKey l k = some v) (hf : f (k, v) = false) :
    lookupKey (l.filter f) k = none := by
  apply lookupKey_eq_none
  intro hmem
  obtain ⟨p, hp, hpk⟩ := List.mem_map.mp hmem
  have hpl := (List.mem_filter.mp hp).1
  have hpf := (List.mem_filter.mp hp).2
  have hlp : lookupKey l k = some p.2 := by
    have hpe : p = (k, p.2) := by
      rw [← hpk]
    rw [hpe] at hpl
    exact lookupKey_of_mem_nodup hnd hpl
  have hpv : p.2 = v := by
    rw [h] at hlp
    exact (Option.some.inj hlp).symm
  rw [show p = (k, v) from by rw [← hpk, ← hpv]] at hpf
  rw [hf] at hpf
  cases hpf

/-- C6: `stealUserSessionIDsForOrg` removes and returns exactly the user's
sessions whose binding is org-only (`team = none`) for that organization: the
returned ids are precisely the org-only matches, a matched session is absent
from the index afterwards, the team map is untouched, every other session of
the user keeps its binding, and other users' entries are untouched. -/
theorem stealUserSessionIDsForOrg_exact (s : IndexState) (hWF : WF s) (u org : String) :
    (stealUserSessionIDsForOrg s u org).2.teamToUsers = s.teamToUsers ∧
    (∀ sid td, sessionLookup s u sid = some td →
      ((sid ∈ (stealUserSessionIDsForOrg s u org).1 ↔ (td.org = org ∧ td.team = none)) ∧
       ((td.org = org ∧ td.team = none) →
         sessionLookup (stealUserSessionIDsForOrg s u org).2 u sid = none) ∧
       (¬(td.org = org ∧ td.team = none) →
         sessionLookup (stealUserSessionIDsForOrg s u org).2 u sid = some td))) ∧
    (∀ u', u' ≠ u →
      lookupKey (stealUserSessionIDsForOrg s u org).2.userSessionIDs u'
        = lookupKey s.userSessionIDs u') := by
  cases hl : lookupKey s.userSessionIDs u with
  | none =>
    refine ⟨by simp [stealUserSessionIDsForOrg, hl], ?_, ?_⟩
    · intro sid td hsl
      rw [sessionLookup, hl] at hsl
      cases hsl
    · intro u' _
      simp [stealUserSessionIDsForOrg, hl]
  | some m =>
    have hmem : (u, m) ∈ s.userSessionIDs := mem_of_lookupKey hl
    have nodm : (m.map Prod.fst).Nodup := hWF.2.1 (u, m) hmem
    refine ⟨by simp [stealUserSessionIDsForOrg, hl], ?_, ?_⟩
    · intro sid td hsl
      rw [sessionLookup, hl] at hsl
      simp only at hsl
      refine ⟨⟨?_, ?_⟩, ?_, ?_⟩
      · intro hin
        simp only [stealUserSessionIDsForOrg, hl, List.mem_map, List.mem_filter] at hin
        obtain ⟨p, ⟨hpm, hpf⟩, hpk⟩ := hin
        have : lookupKey m sid = some p.2 := by
          have : p = (sid, p.2) := by
            rw [← hpk]
          rw [this] at hpm
          exact lookupKey_of_mem_nodup nodm hpm
        have hpd : p.2 = td := by
          rw [hsl] at this
          exact (Option.some.inj this).symm
        rw [show p = (sid, td) from by rw [← hpk, ← hpd]] at hpf
        simpa [orgOnlyMatch, Option.isNone_iff_eq_none] using hpf
      · intro ⟨ho, ht⟩
        have hf : orgOnlyMatch org (sid, td) = true := by
          simp [orgOnlyMatch, ho, ht]
        have : (sid, td) ∈ m.filter (orgOnlyMatch org) :=
          List.mem_filter.mpr ⟨mem_of_lookupKey hsl, hf⟩
        simp only [stealUserSessionIDsForOrg, hl]
        exact List.mem_map.mpr ⟨(sid, td), this, rfl⟩
      · intro hmatch
        have hf : (fun p => !(orgOnlyMatch org p)) (sid, td) = false := by
          simp [orgOnlyMatch, hmatch.1, hmatch.2]
        have hnone : lookupKey (m.filter (fun p => !(orgOnlyMatch org p))) sid = none :=
          lookupKey_filter_none nodm hsl hf
        by_cases hre : (m.filter (fun p => !(orgOnlyMatch org p))).isEmpty
        · have hnl : lookupKey (eraseKey s.userSessionIDs u) u = none :=
            lookupKey_eraseKey_self hWF.1 u
          rw [sessionLookup]
          simp only [stealUserSessionIDsForOrg, hl, hre, if_true, hnl]
        · rw [sessionLookup]
          simp only [stealUserSessionIDsForOrg, hl, hre, Bool.false_eq_true, if_false,
            lookupKey_setKey_self]
          exact hnone
      · intro hn
        have hf : (!(orgOnlyMatch org (sid, td))) = true := by
          simp only [Bool.not_eq_true', orgOnlyMatch]
          by_contra hc
          rw [Bool.not_eq_false] at hc
          exact hn (by simpa [orgOnlyMatch, Option.isNone_iff_eq_none] using hc)
        have hlr : lookupKey (m.filter (fun p => !(orgOnlyMatch org p))) sid = some td :=
          lookupKey_filter hsl hf
        have hre : (m.filter (fun p => !(orgOnlyMatch org p))).isEmpty = false := by
          rcases he : (m.filter (fun p => !(orgOnlyMatch org p))) with _ | _
          · exact absurd (he ▸ hlr) (by simp [lookupKey])
          · simp [he]
        rw [sessionLookup]
        simp only [stealUserSessionIDsForOrg, hl, hre, Bool.false_eq_true, if_false,
          lookupKey_setKey_self]
        exact hlr
    · intro u' hne
      by_cases hre : (m.filter (fun p => !(orgOnlyMatch org p))).isEmpty
      · simp only [stealUserSessionIDsForOrg, hl, hre, if_true]
        exact lookupKey_eraseKey_ne hne
      · simp only [stealUserSessionIDsForOrg, hl, hre, Bool.false_eq_true, if_false]
        exact lookupKey_setKey_ne _ hne

/-- Witness for C6: the spec's Scenario B index ("alice" holds one org-only
binding to acme and one team binding to acme/infra). -/
theorem stealUserSessionIDsForOrg_exact_witness :
    WF sampleIndex ∧
    ((stealUserSessionIDsForOrg sampleIndex "alice" "acme").2.teamToUsers
        = sampleIndex.teamToUsers ∧
    (∀ sid td, sessionLookup sampleIndex "alice" sid = some td →
      ((sid ∈ (stealUserSessionIDsForOrg sampleIndex "alice" "acme").1 ↔
          (td.org = "acme" ∧ td.team = none)) ∧
       ((td.org = "acme" ∧ td.team = none) →
         sessionLookup (stealUserSessionIDsForOrg sampleIndex "alice" "acme").2 "alice" sid
           = none) ∧
       (¬(td.org = "acme" ∧ td.team = none) →
         sessionLookup (stealUserSessionIDsForOrg sampleIndex "alice" "acme").2 "alice" sid
           = some td))) ∧
    (∀ u', u' ≠ "alice" →
      lookupKey (stealUserSessionIDsForOrg sampleIndex "alice" "acme").2.userSessionIDs u'
        = lookupKey sampleIndex.userSessionIDs u')) :=
  ⟨by decide, stealUserSessionIDsForOrg_exact sampleIndex (by decide) "alice" "acme"⟩

/-! C7: the team webhook event handler. -/

/-- The decoded `ghTeamPayload` fields used by `loginWebhookTeamEvent`
(`changesNameFrom` is `changes.name.from`; absent JSON fields decode to `""`). -/
structure GhTeamPayload where
  action : String
  changesNameFrom : String
  teamName : String
  orgLogin : String
deriving DecidableEq, Repr

/-- `loginWebhookTeamEvent` from githubauth.go, after JSON decoding: pick the
invalidation key by action and run `stealSessionIDsForOrgAndTeam`; the returned
ids are the sessions destroyed in the store. -/
def loginWebhookTeamEvent (s : IndexState) (p : GhTeamPayload) : List String × IndexState :=
  if p.action = "deleted" then
    stealSessionIDsForOrgAndTeam s p.orgLogin p.teamName
  else if p.action = "edited" then
    if p.changesNameFrom = "" then ([], s)
    else stealSessionIDsForOrgAndTeam s p.orgLogin p.changesNameFrom
  else ([], s)

/-- C7: a verified team event with action "edited" and a non-empty
`changes.name.from` keys the invalidation on the old team name; an edited
event without a rename mutates nothing and destroys no session; action
"deleted" keys the invalidation on the team's current name. -/
theorem loginWebhookTeamEvent_keys (s : IndexState) (org teamName oldName : String)
    (h : oldName ≠ "") :
    loginWebhookTeamEvent s ⟨"edited", oldName, teamName, org⟩
      = stealSessionIDsForOrgAndTeam s org oldName ∧
    loginWebhookTeamEvent s ⟨"edited", "", teamName, org⟩ = ([], s) ∧
    loginWebhookTeamEvent s ⟨"deleted", oldName, teamName, org⟩
      = stealSessionIDsForOrgAndTeam s org teamName := by
  refine ⟨?_, ?_, ?_⟩ <;> simp [loginWebhookTeamEvent, h]

/-- Witness for C7: the spec's Scenario C (rename of acme/infra from infra-old). -/
theorem loginWebhookTeamEvent_keys_witness :
    ("infra-old" : String) ≠ "" ∧
    (loginWebhookTeamEvent sampleIndex ⟨"edited", "infra-old", "infra", "acme"⟩
      = stealSessionIDsForOrgAndTeam sampleIndex "acme" "infra-old" ∧
    loginWebhookTeamEvent sampleIndex ⟨"edited", "", "infra", "acme"⟩ = ([], sampleIndex) ∧
    loginWebhookTeamEvent sampleIndex ⟨"deleted", "infra-old", "infra", "acme"⟩
      = stealSessionIDsForOrgAndTeam sampleIndex "acme" "infra") :=
  ⟨by decide, loginWebhookTeamEvent_keys sampleIndex "acme" "infra" "infra-old" (by decide)⟩

/-! C3: the OAuth callback `loginCb`. -/

/-- The three-valued `result` of `loginCb` / `doLoginDance`. -/
inductive LoginCbResult where
  | resultOK
  | resultUnauthorized
  | resultInternalFailure
deriving DecidableEq, Repr

/-- `loginCb` from githubauth.go up to its deferred reply. `desiredurl` and
`storedState` are the session's values (`none` models an absent or non-string
entry, for which the Go type assertion fails); `exchangeOk` and `tokenValid`
abstract the OAuth exchange. `result` starts as `resultInternalFailure` and is
set to `resultOK` only after all checks pass; no branch ever assigns
`resultUnauthorized`. -/
def loginCb (desiredurl storedState : Option String) (requestState : String)
    (exchangeOk tokenValid : Bool) : LoginCbResult :=
  match desiredurl with
  | none => .resultInternalFailure
  | some _ =>
    match storedState with
    | none => .resultInternalFailure
    | some expectedState =>
      if expectedState ≠ requestState then .resultInternalFailure
      else if !exchangeOk then .resultInternalFailure
      else if !tokenValid then .resultInternalFailure
      else .resultOK

/-- The deferred reply of `loginCb`: HTTP status sent per result (`none` means
no error reply; the redirect/dance path answers instead). -/
def loginCbStatus : LoginCbResult → Option Nat
  | .resultOK => none
  | .resultUnauthorized => some 401
  | .resultInternalFailure => some 500

/-- Whether the deferred handler of `loginCb` calls `cleanupSession`. -/
def loginCbCleansUp : LoginCbResult → Bool
  | .resultOK => false
  | .resultUnauthorized => true
  | .resultInternalFailure => true

/-- C3 counterexample: with a valid stored desiredurl and state, presenting a
different state makes `loginCb` return `resultInternalFailure` (HTTP 500), not
`resultUnauthorized` (HTTP 401): the mismatch branch returns with `result`
still at its initial `resultInternalFailure` value. -/
theorem loginCb_state_mismatch_is_500 :
    loginCb (some "/app") (some "stateA") "stateB" true true
      = LoginCbResult.resultInternalFailure ∧
    loginCbStatus (loginCb (some "/app") (some "stateA") "stateB" true true) = some 500 ∧
    loginCbStatus (loginCb (some "/app") (some "stateA") "stateB" true true) ≠ some 401 := by
  decide

/-- C3 amended: a CSRF state mismatch is handled like a missing stored state or
desired URL: `loginCb` yields `resultInternalFailure`, the caller receives
HTTP 500, and the session is cleaned up. -/
theorem loginCb_state_mismatch_internal (du st req : String) (eo tv : Bool)
    (h : st ≠ req) :
    loginCb (some du) (some st) req eo tv = LoginCbResult.resultInternalFailure ∧
    loginCbStatus (loginCb (some du) (some st) req eo tv) = some 500 ∧
    loginCbCleansUp (loginCb (some du) (some st) req eo tv) = true ∧
    loginCb none (some st) req eo tv = LoginCbResult.resultInternalFailure ∧
    loginCb (some du) none req eo tv = LoginCbResult.resultInternalFailure := by
  simp [loginCb, h, loginCbStatus, loginCbCleansUp]

/-- Witness for C3's amended theorem. -/
theorem loginCb_state_mismatch_internal_witness :
    ("stateA" : String) ≠ "stateB" ∧
    (loginCb (some "/app") (some "stateA") "stateB" true true
      = LoginCbResult.resultInternalFailure ∧
    loginCbStatus (loginCb (some "/app") (some "stateA") "stateB" true true) = some 500 ∧
    loginCbCleansUp (loginCb (some "/app") (some "stateA") "stateB" true true) = true ∧
    loginCb none (some "stateA") "stateB" true true
      = LoginCbResult.resultInternalFailure ∧
    loginCb (some "/app") none "stateB" true true
      = LoginCbResult.resultInternalFailure) :=
  ⟨by decide, loginCb_state_mismatch_internal "/app" "stateA" "stateB" true true (by decide)⟩

/-! C8: `Authenticate`, the branch without an existing tier. -/

/-- Go `unicode.IsSpace`: Unicode's White_Space property (U+0009..U+000D,
space, NEL, NBSP, OGHAM SPACE MARK, U+2000..U+200A, LINE/PARAGRAPH SEPARATOR,
NARROW NBSP, MEDIUM MATHEMATICAL SPACE, IDEOGRAPHIC SPACE). This is the
separator set of `strings.Fields` and `strings.TrimSpace`. -/
def goIsSpace (c : Char) : Bool :=
  let n := c.toNat
  (0x09 ≤ n && n ≤ 0x0D) || n == 0x20 || n == 0x85 || n == 0xA0 || n == 0x1680 ||
  (0x2000 ≤ n && n ≤ 0x200A) || n == 0x2028 || n == 0x2029 ||
  n == 0x202F || n == 0x205F || n == 0x3000

/-- Accumulator-style splitter behind `goFields`. -/
def fieldsAux : List Char → List Char → List (List Char)
  | [], acc => if acc.isEmpty then [] else [acc.reverse]
  | c :: rest, acc =>
    if goIsSpace c then
      if acc.isEmpty then fieldsAux rest [] else acc.reverse :: fieldsAux rest []
    else fieldsAux rest (c :: acc)

/-- Go `strings.Fields`: split around runs of `unicode.IsSpace` characters. -/
def goFields (s : String) : List String := (fieldsAux s.data []).map fun l => ⟨l⟩

/-- Go `strings.TrimSpace`: drop leading and trailing `unicode.IsSpace`
characters. -/
def goTrim (s : String) : String :=
  ⟨((s.data.dropWhile goIsSpace).reverse.dropWhile goIsSpace).reverse⟩

/-- Go `strings.ToLower` (ASCII suffices for the `"bearer"` comparison). -/
def goToLower (s : String) : String := ⟨s.data.map Char.toLower⟩

/-- What `Authenticate` does for a request with no session tier. -/
inductive AuthOutcome where
  | redirectToLogin
  | unauthorized
  | loginDance (token : String)
deriving DecidableEq, Repr

/-- `Authenticate` from githubauth.go, the branch where the session has no
`"teamID"`: empty Authorization header redirects to the provider login;
a header that is not exactly two fields with a bearer scheme takes the
deferred `failed` path (`cleanupSession` + HTTP 401); otherwise the login
dance runs with the presented token. -/
def authenticateNoTier (authHeader : String) : AuthOutcome :=
  if authHeader = "" then .redirectToLogin
  else
    match goFields authHeader with
    | [schemeTok, tokenTok] =>
        if goToLower (goTrim schemeTok) ≠ "bearer" then .unauthorized
        else .loginDance (goTrim tokenTok)
    | _ => .unauthorized

/-- HTTP reply of `authenticateNoTier` (`none`: the dance replies itself). -/
def authStatus : AuthOutcome → Option Nat
  | .redirectToLogin => some 307
  | .unauthorized => some 401
  | .loginDance _ => none

/-- A present Authorization header that is not a well-formed bearer header. -/
def malformedAuthHeader (h : String) : Bool :=
  match goFields h with
  | [schemeTok, _] => goToLower (goTrim schemeTok) != "bearer"
  | _ => true

/-- C8 counterexample: a malformed Authorization header gets HTTP 401
(Unauthorized, with session cleanup), not HTTP 400 (MalformedInput). -/
theorem authenticate_malformed_is_401 :
    authenticateNoTier "Basic abc" = AuthOutcome.unauthorized ∧
    authStatus (authenticateNoTier "Basic abc") = some 401 ∧
    authStatus (authenticateNoTier "Basic abc") ≠ some 400 := by
  decide

/-- C8 amended: on a present but malformed Authorization header (not exactly
two whitespace-separated fields, or a non-bearer scheme), `Authenticate`
responds HTTP 401 via the deferred `failed` path, which runs `cleanupSession`;
for a session carrying no username that cleanup leaves the index unchanged. -/
theorem authenticate_malformed_unauthorized (h : String) (hne : h ≠ "")
    (hmal : malformedAuthHeader h = true) :
    authenticateNoTier h = AuthOutcome.unauthorized ∧
    authStatus (authenticateNoTier h) = some 401 ∧
    (∀ s sid, cleanupSession s none sid = s) := by
  have hout : authenticateNoTier h = AuthOutcome.unauthorized := by
    rcases hg : goFields h with _ | ⟨a, _ | ⟨b, _ | ⟨c, rest⟩⟩⟩
    · simp [authenticateNoTier, hne, hg]
    · simp [authenticateNoTier, hne, hg]
    · have hb : goToLower (goTrim a) ≠ "bearer" := by
        have hm := hmal
        unfold malformedAuthHeader at hm
        rw [hg] at hm
        simpa using hm
      simp [authenticateNoTier, hne, hg, hb]
    · simp [authenticateNoTier, hne, hg]
  exact ⟨hout, by rw [hout]; rfl, fun s sid => rfl⟩

/-- Witness for C8's amended theorem at the header `"Basic abc"`. -/
theorem authenticate_malformed_unauthorized_witness :
    (("Basic abc" : String) ≠ "" ∧ malformedAuthHeader "Basic abc" = true) ∧
    (authenticateNoTier "Basic abc" = AuthOutcome.unauthorized ∧
    authStatus (authenticateNoTier "Basic abc") = some 401 ∧
    (∀ s sid, cleanupSession s none sid = s)) :=
  ⟨⟨by decide, by decide⟩,
   authenticate_malformed_unauthorized "Basic abc" (by decide) (by decide)⟩

/-! C10: the webhook signature check. -/

/-- Outcome of the verification prologue of `loginWebhook`. -/
inductive WebhookVerify where
  | dropNoSignature
  | fault
  | verified (ok : Bool)
deriving DecidableEq, Repr

/-- Go string slicing `s[n:]`: defined only for `n ≤ len(s)`; `none` embeds the
slice-bounds runtime fault. -/
def sliceFrom (s : String) (n : Nat) : Option String :=
  if n ≤ s.length then some (s.drop n) else none

/-- The signature step of `loginWebhook`: empty header is dropped silently,
otherwise the code strips the 5-character `"sha1="` prefix with
`signature[5:]` and compares against the hex MAC of the body. -/
def verifyWebhookSignature (signature payloadMAC : String) : WebhookVerify :=
  if signature = "" then .dropNoSignature
  else
    match sliceFrom signature 5 with
    | none => .fault
    | some stripped => .verified (stripped == payloadMAC)

/-- C10: refuted — a non-empty `X-Hub-Signature` shorter than 5 characters
reaches the slice-bounds fault of `signature[5:]`; the error branch of the
embedding is reachable, so the verification step does not always complete. -/
theorem loginWebhook_short_signature_fault (payloadMAC : String) :
    verifyWebhookSignature "abc" payloadMAC = WebhookVerify.fault ∧
    ("abc" : String) ≠ "" ∧ ("abc" : String).length < 5 := by
  refine ⟨rfl, by decide, by decide⟩

/-! C4 and C5: the team and organization scans of `doLoginDance`. -/

/-- The github organization fields the scan reads (`Login *string`). -/
structure GhOrgRec where
  login : Option String
deriving DecidableEq, Repr

/-- The github team fields the scan reads (`Name *string`,
`Organization *Organization`). -/
structure GhTeamRec where
  name : Option String
  organization : Option GhOrgRec
deriving DecidableEq, Repr

/-- The configuration `doLoginDance` reads: `rwTeams`, `roTeams`,
`defaultTeamID`. -/
structure DanceConfig where
  readWriteTeams : List String
  readOnlyTeams : List String
  defaultTeamID : String
deriving DecidableEq, Repr

/-- The mutable locals of `doLoginDance`'s scans: `org`/`team` are `teamData`,
plus `teamID`, the `isRO`/`isRW` flags, and the session's `"accesslevel"`. -/
structure ScanState where
  org : String
  team : Option String
  teamID : String
  isRO : Bool
  isRW : Bool
  accesslevel : Option String
deriving DecidableEq, Repr

/-- Scan state at entry: zero-valued `teamData`, empty `teamID`, both flags
false, no access level written yet. -/
def initScanState : ScanState := ⟨"", none, "", false, false, none⟩

/-- One team of `checkLoop`: skip unnamed/org-less teams; record the first
read-only match and keep scanning; a read-write match records and breaks the
whole loop (modelled by the `isRW` guard freezing the state). -/
def teamStep (cfg : DanceConfig) (s : ScanState) (t : GhTeamRec) : ScanState :=
  if s.isRW then s
  else
    match t.name with
    | none => s
    | some name =>
      match t.organization with
      | none => s
      | some orgRec =>
        match orgRec.login with
        | none => s
        | some orgLogin =>
          let fullGithubTeamName := makeTeamName orgLogin name
          let s1 := if ¬s.isRO ∧ fullGithubTeamName ∈ cfg.readOnlyTeams then
              { s with org := orgLogin, team := some name, teamID := cfg.defaultTeamID,
                       isRO := true, accesslevel := some "ro" }
            else s
          if fullGithubTeamName ∈ cfg.readWriteTeams then
            { s1 with org := orgLogin, team := some name, teamID := cfg.defaultTeamID,
                      isRW := true, accesslevel := some "rw" }
          else s1

/-- All pages of the team scan (`checkLoop`). -/
def teamScan (cfg : DanceConfig) (pages : List (List GhTeamRec)) : ScanState :=
  pages.foldl (fun s page => page.foldl (teamStep cfg) s) initScanState

/-- Org-scan loop state: `stop` models `break checkLoop2`. -/
structure OrgScanState where
  state : ScanState
  stop : Bool
deriving DecidableEq, Repr

/-- One organization of `checkLoop2`. Note, exactly as in the source: the
read-write branch sets neither `isRW` nor `team`. -/
def orgStep (cfg : DanceConfig) (st : OrgScanState) (o : GhOrgRec) : OrgScanState :=
  if st.stop then st
  else
    match o.login with
    | none => st
    | some orgLogin =>
      let s := st.state
      let s1 := if ¬s.isRO ∧ orgLogin ∈ cfg.readOnlyTeams then
          { s with org := orgLogin, teamID := cfg.defaultTeamID, isRO := true,
                   accesslevel := some "ro" }
        else s
      if orgLogin ∈ cfg.readWriteTeams then
        ⟨{ s1 with org := orgLogin, teamID := cfg.defaultTeamID,
                   accesslevel := some "rw" }, true⟩
      else ⟨s1, st.stop⟩

/-- All pages of the organization scan (`checkLoop2`). -/
def orgScan (cfg : DanceConfig) (s0 : ScanState) (pages : List (List GhOrgRec)) :
    ScanState :=
  (pages.foldl (fun (st : OrgScanState) (page : List GhOrgRec) =>
    page.foldl (orgStep cfg) st) (OrgScanState.mk s0 false)).state

/-- The matching phase of `doLoginDance`: teams first; organizations only when
no read-write team matched. -/
def danceScan (cfg : DanceConfig) (teamPages : List (List GhTeamRec))
    (orgPages : List (List GhOrgRec)) : ScanState :=
  let s1 := teamScan cfg teamPages
  if s1.isRW then s1 else orgScan cfg s1 orgPages

/-- The tail of `doLoginDance`: `teamID == ""` is the unauthorized outcome (no
index entry); otherwise `(username, session.ID(), teamData)` is inserted. -/
def doLoginDance (cfg : DanceConfig) (username sessionID : String)
    (teamPages : List (List GhTeamRec)) (orgPages : List (List GhOrgRec))
    (st : IndexState) : IndexState × Bool :=
  let sc := danceScan cfg teamPages orgPages
  if sc.teamID = "" then (st, false)
  else (addSessionID st username sessionID ⟨sc.org, sc.team⟩, true)

theorem teamStep_frozen (cfg : DanceConfig) {s : ScanState} (t : GhTeamRec)
    (h : s.isRW = true) : teamStep cfg s t = s := by
  simp [teamStep, h]

theorem teamStep_rwteam (cfg : DanceConfig) (s : ScanState) {t : GhTeamRec}
    {n o : String} {orr : GhOrgRec} (hn : t.name = some n)
    (ho : t.organization = some orr) (hl : orr.login = some o)
    (hrw : makeTeamName o n ∈ cfg.readWriteTeams) :
    (teamStep cfg s t).isRW = true := by
  by_cases hs : s.isRW = true
  · rw [teamStep_frozen cfg t hs]
    exact hs
  · simp [teamStep, hs, hn, ho, hl, hrw]

theorem foldl_teamStep_frozen (cfg : DanceConfig) (page : List GhTeamRec)
    {s : ScanState} (h : s.isRW = true) : page.foldl (teamStep cfg) s = s := by
  induction page with
  | nil => rfl
  | cons t rest ih => rw [List.foldl_cons, teamStep_frozen cfg t h]; exact ih

theorem foldl_teamStep_rw (cfg : DanceConfig) (page : List GhTeamRec)
    {s : ScanState} (h : s.isRW = true) : (page.foldl (teamStep cfg) s).isRW = true := by
  rw [foldl_teamStep_frozen cfg page h]
  exact h

theorem foldl_teamStep_hits (cfg : DanceConfig) {page : List GhTeamRec}
    {t : GhTeamRec} (ht : t ∈ page) {n o : String} {orr : GhOrgRec}
    (hn : t.name = some n) (ho : t.organization = some orr) (hl : orr.login = some o)
    (hrw : makeTeamName o n ∈ cfg.readWriteTeams) (s : ScanState) :
    (page.foldl (teamStep cfg) s).isRW = true := by
  induction page generalizing s with
  | nil => cases ht
  | cons t0 rest ih =>
    rcases List.mem_cons.mp ht with rfl | hmem
    · rw [List.foldl_cons]
      exact foldl_teamStep_rw cfg rest (teamStep_rwteam cfg s hn ho hl hrw)
    · rw [List.foldl_cons]
      exact ih hmem _

theorem pages_foldl_teamStep_rw (cfg : DanceConfig) (pages : List (List GhTeamRec))
    {s : ScanState} (h : s.isRW = true) :
    (pages.foldl (fun s page => page.foldl (teamStep cfg) s) s).isRW = true := by
  induction pages generalizing s with
  | nil => exact h
  | cons p rest ih =>
    rw [List.foldl_cons, foldl_teamStep_frozen cfg p h]
    exact ih h

theorem teamScan_isRW (cfg : DanceConfig) {pages : List (List GhTeamRec)}
    {page : List GhTeamRec} (hp : page ∈ pages) {t : GhTeamRec} (ht : t ∈ page)
    {n o : String} {orr : GhOrgRec} (hn : t.name = some n)
    (ho : t.organization = some orr) (hl : orr.login = some o)
    (hrw : makeTeamName o n ∈ cfg.readWriteTeams) :
    (teamScan cfg pages).isRW = true := by
  unfold teamScan
  suffices hgen : ∀ s : ScanState,
      (pages.foldl (fun s page => page.foldl (teamStep cfg) s) s).isRW = true from
    hgen initScanState
  induction pages with
  | nil => cases hp
  | cons p0 rest ih =>
    intro s
    rcases List.mem_cons.mp hp with rfl | hmem
    · rw [List.foldl_cons]
      exact pages_foldl_teamStep_rw cfg rest (foldl_teamStep_hits cfg ht hn ho hl hrw s)
    · rw [List.foldl_cons]
      exact ih hmem _

theorem teamStep_cases (cfg : DanceConfig) (s : ScanState) (t : GhTeamRec) :
    teamStep cfg s t = s ∨
    ((teamStep cfg s t).isRW = false ∧ (teamStep cfg s t).isRO = true) ∨
    ((teamStep cfg s t).isRW = true ∧ (teamStep cfg s t).accesslevel = some "rw") := by
  by_cases hs : s.isRW = true
  · exact Or.inl (teamStep_frozen cfg t hs)
  · have hsf : s.isRW = false := Bool.eq_false_iff.mpr hs
    rcases hn : t.name with _ | name
    · exact Or.inl (by simp [teamStep, hs, hn])
    · rcases ho : t.organization with _ | orgRec
      · exact Or.inl (by simp [teamStep, hs, hn, ho])
      · rcases hl : orgRec.login with _ | orgLogin
        · exact Or.inl (by simp [teamStep, hs, hn, ho, hl])
        · by_cases hrw : makeTeamName orgLogin name ∈ cfg.readWriteTeams
          · refine Or.inr (Or.inr ⟨?_, ?_⟩) <;> simp [teamStep, hs, hn, ho, hl, hrw]
          · by_cases hro : s.isRO = false ∧ makeTeamName orgLogin name ∈ cfg.readOnlyTeams
            · refine Or.inr (Or.inl ⟨?_, ?_⟩) <;>
                simp [teamStep, hs, hn, ho, hl, hrw, hro, hsf]
            · exact Or.inl (by simp [teamStep, hs, hn, ho, hl, hrw, hro])

theorem teamStep_access (cfg : DanceConfig) (s : ScanState) (t : GhTeamRec)
    (h : s.isRW = true → s.accesslevel = some "rw") :
    (teamStep cfg s t).isRW = true → (teamStep cfg s t).accesslevel = some "rw" := by
  rcases teamStep_cases cfg s t with hc | ⟨h1, _⟩ | ⟨_, h2⟩
  · rw [hc]
    exact h
  · intro hx
    rw [hx] at h1
    cases h1
  · intro _
    exact h2

theorem foldl_teamStep_access (cfg : DanceConfig) (page : List GhTeamRec)
    {s : ScanState} (h : s.isRW = true → s.accesslevel = some "rw") :
    (page.foldl (teamStep cfg) s).isRW = true →
    (page.foldl (teamStep cfg) s).accesslevel = some "rw" := by
  induction page generalizing s with
  | nil => exact h
  | cons t rest ih =>
    rw [List.foldl_cons]
    exact ih (teamStep_access cfg s t h)

theorem teamScan_access (cfg : DanceConfig) (pages : List (List GhTeamRec)) :
    (teamScan cfg pages).isRW = true → (teamScan cfg pages).accesslevel = some "rw" := by
  unfold teamScan
  suffices hgen : ∀ s : ScanState, (s.isRW = true → s.accesslevel = some "rw") →
      ((pages.foldl (fun s page => page.foldl (teamStep cfg) s) s).isRW = true →
       (pages.foldl (fun s page => page.foldl (teamStep cfg) s) s).accesslevel
         = some "rw") from
    hgen initScanState (by intro h; cases h)
  induction pages with
  | nil => exact fun s h => h
  | cons p rest ih =>
    intro s h
    rw [List.foldl_cons]
    exact ih _ (foldl_teamStep_access cfg p h)

/-- C4: a caller whose team memberships include (on any pages, in any order) a
team matching the read-write list and a team matching the read-only list
resolves to `"rw"`: the read-write match short-circuits the scans, and the
organization scan is skipped. -/
theorem dance_priority_rw (cfg : DanceConfig) (teamPages : List (List GhTeamRec))
    (orgPages : List (List GhOrgRec))
    (hrw : ∃ page ∈ teamPages, ∃ t ∈ page, ∃ n : String, ∃ orr : GhOrgRec, ∃ o : String,
      t.name = some n ∧ t.organization = some orr ∧ orr.login = some o ∧
      makeTeamName o n ∈ cfg.readWriteTeams)
    (_hro : ∃ page ∈ teamPages, ∃ t ∈ page, ∃ n : String, ∃ orr : GhOrgRec, ∃ o : String,
      t.name = some n ∧ t.organization = some orr ∧ orr.login = some o ∧
      makeTeamName o n ∈ cfg.readOnlyTeams) :
    (danceScan cfg teamPages orgPages).accesslevel = some "rw" ∧
    (danceScan cfg teamPages orgPages).isRW = true := by
  obtain ⟨page, hp, t, ht, n, orr, o, hn, horg, hl, hmem⟩ := hrw
  have h1 : (teamScan cfg teamPages).isRW = true := teamScan_isRW cfg hp ht hn horg hl hmem
  have h2 : (teamScan cfg teamPages).accesslevel = some "rw" :=
    teamScan_access cfg teamPages h1
  unfold danceScan
  simp [h1, h2]

/-- The two team pages of the C4 witness: the read-only match comes first. -/
def danceTeamPagesW : List (List GhTeamRec) :=
  [[⟨some "devs", some ⟨some "acme"⟩⟩], [⟨some "admins", some ⟨some "acme"⟩⟩]]

/-- The configuration of the C4 witness. -/
def danceCfgW : DanceConfig := ⟨["acme/admins"], ["acme/devs"], "tid"⟩

/-- Witness for C4: read-only team on page one, read-write team on page two;
the result is still `"rw"`. -/
theorem dance_priority_rw_witness :
    (∃ page ∈ danceTeamPagesW, ∃ t ∈ page, ∃ n : String, ∃ orr : GhOrgRec, ∃ o : String,
      t.name = some n ∧ t.organization = some orr ∧ orr.login = some o ∧
      makeTeamName o n ∈ danceCfgW.readWriteTeams) ∧
    (∃ page ∈ danceTeamPagesW, ∃ t ∈ page, ∃ n : String, ∃ orr : GhOrgRec, ∃ o : String,
      t.name = some n ∧ t.organization = some orr ∧ orr.login = some o ∧
      makeTeamName o n ∈ danceCfgW.readOnlyTeams) ∧
    ((danceScan danceCfgW danceTeamPagesW []).accesslevel = some "rw" ∧
     (danceScan danceCfgW danceTeamPagesW []).isRW = true) :=
  ⟨⟨[⟨some "admins", some ⟨some "acme"⟩⟩], by decide,
    ⟨some "admins", some ⟨some "acme"⟩⟩, by decide,
    "admins", ⟨some "acme"⟩, "acme", rfl, rfl, rfl, by decide⟩,
   ⟨[⟨some "devs", some ⟨some "acme"⟩⟩], by decide,
    ⟨some "devs", some ⟨some "acme"⟩⟩, by decide,
    "devs", ⟨some "acme"⟩, "acme", rfl, rfl, rfl, by decide⟩,
   dance_priority_rw danceCfgW danceTeamPagesW []
    ⟨[⟨some "admins", some ⟨some "acme"⟩⟩], by decide,
     ⟨some "admins", some ⟨some "acme"⟩⟩, by decide,
     "admins", ⟨some "acme"⟩, "acme", rfl, rfl, rfl, by decide⟩
    ⟨[⟨some "devs", some ⟨some "acme"⟩⟩], by decide,
     ⟨some "devs", some ⟨some "acme"⟩⟩, by decide,
     "devs", ⟨some "acme"⟩, "acme", rfl, rfl, rfl, by decide⟩⟩

theorem orgStep_team (cfg : DanceConfig) (st : OrgScanState) (o : GhOrgRec) :
    (orgStep cfg st o).state.team = st.state.team := by
  by_cases hs : st.stop = true
  · simp [orgStep, hs]
  · rcases hl : o.login with _ | orgLogin
    · simp [orgStep, hs, hl]
    · by_cases hrw : orgLogin ∈ cfg.readWriteTeams
      · by_cases hro : st.state.isRO = false ∧ orgLogin ∈ cfg.readOnlyTeams <;>
          simp [orgStep, hs, hl, hrw, hro]
      · by_cases hro : st.state.isRO = false ∧ orgLogin ∈ cfg.readOnlyTeams <;>
          simp [orgStep, hs, hl, hrw, hro]

theorem foldl_orgStep_team (cfg : DanceConfig) (page : List GhOrgRec)
    (st : OrgScanState) :
    (page.foldl (orgStep cfg) st).state.team = st.state.team := by
  induction page generalizing st with
  | nil => rfl
  | cons o rest ih =>
    rw [List.foldl_cons, ih, orgStep_team]

theorem orgScan_team (cfg : DanceConfig) (s0 : ScanState)
    (pages : List (List GhOrgRec)) : (orgScan cfg s0 pages).team = s0.team := by
  unfold orgScan
  suffices hgen : ∀ st : OrgScanState,
      (pages.foldl (fun st page => page.foldl (orgStep cfg) st) st).state.team
        = st.state.team from hgen ⟨s0, false⟩
  induction pages with
  | nil => exact fun st => rfl
  | cons p rest ih =>
    intro st
    rw [List.foldl_cons, ih, foldl_orgStep_team]

theorem teamStep_team_none (cfg : DanceConfig) (s : ScanState) (t : GhTeamRec)
    (h : s.isRO = false → s.isRW = false → s.team = none) :
    (teamStep cfg s t).isRO = false → (teamStep cfg s t).isRW = false →
    (teamStep cfg s t).team = none := by
  rcases teamStep_cases cfg s t with hc | ⟨_, h2⟩ | ⟨h1, _⟩
  · rw [hc]
    exact h
  · intro hro _
    rw [h2] at hro
    cases hro
  · intro _ hrw
    rw [h1] at hrw
    cases hrw

theorem foldl_teamStep_team_none (cfg : DanceConfig) (page : List GhTeamRec)
    {s : ScanState} (h : s.isRO = false → s.isRW = false → s.team = none) :
    (page.foldl (teamStep cfg) s).isRO = false →
    (page.foldl (teamStep cfg) s).isRW = false →
    (page.foldl (teamStep cfg) s).team = none := by
  induction page generalizing s with
  | nil => exact h
  | cons t rest ih =>
    rw [List.foldl_cons]
    exact ih (teamStep_team_none cfg s t h)

theorem teamScan_team_none (cfg : DanceConfig) (pages : List (List GhTeamRec)) :
    (teamScan cfg pages).isRO = false → (teamScan cfg pages).isRW = false →
    (teamScan cfg pages).team = none := by
  unfold teamScan
  suffices hgen : ∀ s : ScanState, (s.isRO = false → s.isRW = false → s.team = none) →
      ((pages.foldl (fun s page => page.foldl (teamStep cfg) s) s).isRO = false →
       (pages.foldl (fun s page => page.foldl (teamStep cfg) s) s).isRW = false →
       (pages.foldl (fun s page => page.foldl (teamStep cfg) s) s).team = none) from
    hgen initScanState (fun _ _ => rfl)
  induction pages with
  | nil => exact fun s h => h
  | cons p rest ih =>
    intro s h
    rw [List.foldl_cons]
    exact ih _ (foldl_teamStep_team_none cfg p h)

/-- C5 amended: an organization-scan resolution yields an org-only binding
(`team = none`) provided no read-only team was recorded during the team scan;
the binding inserted by `doLoginDance` is then `⟨org, none⟩`. (When a
read-only team did match earlier, the source keeps that team name in the
binding — see the counterexample.) -/
theorem dance_org_resolution_org_only (cfg : DanceConfig)
    (teamPages : List (List GhTeamRec)) (orgPages : List (List GhOrgRec))
    (username sessionID : String) (st : IndexState)
    (h1 : (teamScan cfg teamPages).isRW = false)
    (h2 : (teamScan cfg teamPages).isRO = false)
    (h3 : (danceScan cfg teamPages orgPages).teamID ≠ "") :
    (danceScan cfg teamPages orgPages).team = none ∧
    (doLoginDance cfg username sessionID teamPages orgPages st).1
      = addSessionID st username sessionID
          ⟨(danceScan cfg teamPages orgPages).org, none⟩ := by
  have hteam : (danceScan cfg teamPages orgPages).team = none := by
    unfold danceScan
    simp only [h1, Bool.false_eq_true, if_false]
    rw [orgScan_team]
    exact teamScan_team_none cfg teamPages h2 h1
  refine ⟨hteam, ?_⟩
  unfold doLoginDance
  simp only [if_neg h3]
  rw [← hteam]

/-- The C5 counterexample configuration: `"a/t"` is read-only, the bare
organization name `"neworg"` is in the read-write list. -/
def cfgC5 : DanceConfig := ⟨["neworg"], ["a/t"], "tid"⟩

/-- C5 counterexample team pages: one read-only team match `a/t`. -/
def teamPagesC5 : List (List GhTeamRec) := [[⟨some "t", some ⟨some "a"⟩⟩]]

/-- C5 counterexample org pages: the read-write organization `neworg`. -/
def orgPagesC5 : List (List GhOrgRec) := [[⟨some "neworg"⟩]]

/-- C5 counterexample: no read-write team matched, the caller is resolved by
the organization scan (accesslevel `"rw"`, non-empty teamID), yet the inserted
binding is `⟨"neworg", some "t"⟩` — the read-only team recorded earlier leaks
into the binding, so it is not org-only. -/
theorem dance_org_resolution_keeps_ro_team :
    (teamScan cfgC5 teamPagesC5).isRW = false ∧
    (danceScan cfgC5 teamPagesC5 orgPagesC5).accesslevel = some "rw" ∧
    (danceScan cfgC5 teamPagesC5 orgPagesC5).teamID ≠ "" ∧
    (danceScan cfgC5 teamPagesC5 orgPagesC5).team = some "t" ∧
    (doLoginDance cfgC5 "u" "s1" teamPagesC5 orgPagesC5 emptyIndex).1.userSessionIDs
      = [("u", [("s1", ⟨"neworg", some "t"⟩)])] := by
  decide

/-- Witness for C5's amended theorem: no team matches at all, the read-only
organization `"acme"` resolves the caller, and the binding is org-only. -/
theorem dance_org_resolution_org_only_witness :
    ((teamScan cfgC5 []).isRW = false ∧ (teamScan cfgC5 []).isRO = false ∧
     (danceScan cfgC5 [] [[⟨some "neworg"⟩]]).teamID ≠ "") ∧
    ((danceScan cfgC5 [] [[⟨some "neworg"⟩]]).team = none ∧
     (doLoginDance cfgC5 "u" "s1" [] [[⟨some "neworg"⟩]] emptyIndex).1
       = addSessionID emptyIndex "u" "s1"
           ⟨(danceScan cfgC5 [] [[⟨some "neworg"⟩]]).org, none⟩) :=
  ⟨⟨by decide, by decide, by decide⟩,
   dance_org_resolution_org_only cfgC5 [] [[⟨some "neworg"⟩]] "u" "s1" emptyIndex
     (by decide) (by decide) (by decide)⟩

end Nebraska
